import Mathlib

/-!
Shallow embedding of `kinescope/downloader.py` (class `VideoDownloader`).

Conventions:
* Machine bytes are `Nat` values below 256.
* A Python exception is a `PyErr` value; a fallible computation returns
  `Except PyErr α`.
* The HTTP layer is an input to each function: the license endpoint's JSON
  reply is a `LicResponse`, and the segment network is a function
  `String → Nat → Option (List Nat)` giving, for a URL and an attempt
  index, either the body bytes or a `ChunkedEncodingError` (`none`).
-/

namespace Kinescope

/-- Python exceptions that can escape the modelled code paths.
`unsupportedEncryption`, `invalidResolution` and `segmentDownloadError`
are the library's own exception classes from `kinescope/exceptions`. -/
inductive PyErr where
  | keyError
  | indexError
  | valueError
  | typeError
  | attributeError
  | binasciiError
  | unsupportedEncryption
  | invalidResolution
  | segmentDownloadError (url : String)
  deriving DecidableEq, Repr

/-- Lift an optional value into `Except`, raising `e` on `none`
(models `[0]` indexing, dict access, and similar fallible operations). -/
def exceptOfOption (e : PyErr) : Option α → Except PyErr α
  | some a => .ok a
  | none => .error e

/- ---------------------------------------------------------------------
MPD data model, mirroring the `mpegdash` objects the code navigates:
`mpd.periods[i].adaptation_sets[j]` with `content_protections`,
`representations` (width/height/base_urls/segment_lists), and
`segment_lists[k].segment_urls[l].media`.
--------------------------------------------------------------------- -/

structure SegmentURL where
  media : Option String
  deriving DecidableEq, Repr

structure SegmentList where
  segment_urls : List SegmentURL
  deriving DecidableEq, Repr

structure BaseURL where
  base_url_value : String
  deriving DecidableEq, Repr

structure Representation where
  width : Option Nat
  height : Option Nat
  base_urls : List BaseURL
  segment_lists : List SegmentList
  deriving DecidableEq, Repr

structure ContentProtection where
  cenc_default_kid : Option String
  deriving DecidableEq, Repr

structure AdaptationSet where
  mime_type : String
  content_protections : List ContentProtection
  representations : List Representation
  deriving DecidableEq, Repr

structure Period where
  adaptation_sets : List AdaptationSet
  deriving DecidableEq, Repr

structure MPEGDASH where
  periods : List Period
  deriving DecidableEq, Repr

/-- A requested resolution: the Python tuple compared against
`(r.width, r.height)`, whose components may be `None`. -/
abbrev Resolution := Option Nat × Option Nat

/-- Shape of the license endpoint's JSON reply as far as the code reads
it: an optional `keys` list whose entries may carry a `k` field.
A missing field surfaces as `KeyError`, `keys[0]` on an empty list as
`IndexError`. -/
structure KeyObj where
  k : Option String
  deriving DecidableEq, Repr

structure LicResponse where
  keys : Option (List KeyObj)
  deriving DecidableEq, Repr

/- ---------------------------------------------------------------------
Byte/string helpers: `bytes.fromhex`, `bytes.hex`, and non-strict
`base64.b64decode` as implemented by `binascii.a2b_base64`.
--------------------------------------------------------------------- -/

/-- Value of one hex digit. -/
def hexVal (c : Char) : Option Nat :=
  if '0' ≤ c ∧ c ≤ '9' then some (c.toNat - 48)
  else if 'a' ≤ c ∧ c ≤ 'f' then some (c.toNat - 97 + 10)
  else if 'A' ≤ c ∧ c ≤ 'F' then some (c.toNat - 65 + 10)
  else none

/-- `bytes.fromhex`: pairs of hex digits, ASCII spaces allowed between
pairs, anything else (including an odd digit count) raises `ValueError`. -/
def bytesFromHexGo : List Char → Option (List Nat)
  | [] => some []
  | ' ' :: rest => bytesFromHexGo rest
  | c1 :: c2 :: rest => do
    let h ← hexVal c1
    let l ← hexVal c2
    let bs ← bytesFromHexGo rest
    some ((16 * h + l) :: bs)
  | [_] => none

def bytesFromHex (s : String) : Option (List Nat) :=
  bytesFromHexGo s.data

/-- Lower-case hex digit for a value below 16 (`bytes.hex`). -/
def hexDigit (n : Nat) : Char :=
  if n < 10 then Char.ofNat (48 + n) else Char.ofNat (87 + n)

def byteToHex (b : Nat) : String :=
  ⟨[hexDigit (b / 16), hexDigit (b % 16)]⟩

/-- `bytes.hex()`: lower-case hex encoding of a byte sequence. -/
def bytesHex (bs : List Nat) : String :=
  String.join (bs.map byteToHex)

/-- Value of one base64 alphabet character. -/
def b64Val (c : Char) : Option Nat :=
  if 'A' ≤ c ∧ c ≤ 'Z' then some (c.toNat - 65)
  else if 'a' ≤ c ∧ c ≤ 'z' then some (c.toNat - 97 + 26)
  else if '0' ≤ c ∧ c ≤ '9' then some (c.toNat - 48 + 52)
  else if c = '+' then some 62
  else if c = '/' then some 63
  else none

/-- Non-strict `binascii.a2b_base64` (what `base64.b64decode` calls):
characters outside the alphabet are discarded; a `=` with at least two
data characters in the current quad counts as padding and, once the quad
is complete, decoding stops successfully; a `=` earlier in a quad is
ignored; a leftover incomplete quad at the end is an error
(`binascii.Error`). State: remaining input, quad position (0..3), bits
carried from the previous character, pads seen, output accumulator. -/
def a2b64Go : List Char → Nat → Nat → Nat → List Nat → Option (List Nat)
  | [], quadPos, _, _, acc =>
    if quadPos = 0 then some acc.reverse else none
  | c :: rest, quadPos, leftchar, pads, acc =>
    if c = '=' then
      if 2 ≤ quadPos ∧ 4 ≤ quadPos + (pads + 1) then some acc.reverse
      else if 2 ≤ quadPos then a2b64Go rest quadPos leftchar (pads + 1) acc
      else a2b64Go rest quadPos leftchar pads acc
    else
      match b64Val c with
      | none => a2b64Go rest quadPos leftchar pads acc
      | some v =>
        match quadPos with
        | 0 => a2b64Go rest 1 v 0 acc
        | 1 => a2b64Go rest 2 (v % 16) 0 ((leftchar * 4 + v / 16) :: acc)
        | 2 => a2b64Go rest 3 (v % 4) 0 ((leftchar * 16 + v / 4) :: acc)
        | _ => a2b64Go rest 0 0 0 ((leftchar * 64 + v) :: acc)

/-- `base64.b64decode` with default (non-strict) validation. -/
def b64decodePy (s : String) : Option (List Nat) :=
  a2b64Go s.data 0 0 0 []

/-- `kid.replace('-', '')`: the pattern is a single character, so the
call just deletes every dash. -/
def stripDashes (s : String) : String :=
  ⟨s.data.filter (fun c => c ≠ '-')⟩

/- ---------------------------------------------------------------------
`_get_license_key` (downloader.py lines 71-95).

The body is one conditional expression guarded by
`... if self.mpd_master.periods[0].adaptation_sets[0].content_protections else None`,
inside `try: ... except KeyError: raise UnsupportedEncryption(...)`.
Python evaluates the guard first, then (when truthy) the request
arguments — in particular `bytes.fromhex(kid.replace('-', ''))` — and
then reads `resp.json()['keys'][0]['k'] + '=='` and base64-decodes it.
The POST body itself (`b64encode` of the kid bytes) does not influence
the modelled result; the endpoint's reply is the `resp` argument.
--------------------------------------------------------------------- -/

/-- Body of `_get_license_key` once `periods[0]` has been resolved to `p`. -/
def licenseFromPeriod (p : Period) (resp : LicResponse) : Except PyErr (Option String) :=
  match p.adaptation_sets.head? with
  | none => .error .indexError
  | some a =>
    if a.content_protections ≠ [] then
      match a.content_protections.head? with
      | none => .error .indexError
      | some cp =>
        match cp.cenc_default_kid with
        | none => .error .attributeError
        | some kid =>
          match bytesFromHex (stripDashes kid) with
          | none => .error .valueError
          | some _kidBytes =>
            match resp.keys with
            | none => .error .keyError
            | some keys =>
              match keys.head? with
              | none => .error .indexError
              | some k0 =>
                match k0.k with
                | none => .error .keyError
                | some kStr =>
                  match b64decodePy (kStr ++ "==") with
                  | none => .error .binasciiError
                  | some bs => .ok (some (bytesHex bs))
    else .ok none

/-- `_get_license_key` before the `except KeyError` handler. -/
def getLicenseKeyInner (m : MPEGDASH) (resp : LicResponse) : Except PyErr (Option String) :=
  match m.periods.head? with
  | none => .error .indexError
  | some p => licenseFromPeriod p resp

/-- `_get_license_key`: `except KeyError: raise UnsupportedEncryption(...)`. -/
def getLicenseKey (m : MPEGDASH) (resp : LicResponse) : Except PyErr (Option String) :=
  match getLicenseKeyInner m resp with
  | .error .keyError => .error .unsupportedEncryption
  | r => r

/- ---------------------------------------------------------------------
`_fetch_segment` (lines 97-110) and `_fetch_segments` (lines 112-125).

`net url i` is the outcome of the HTTP GET for `url` on attempt `i`
(attempts are numbered from 0): `some body` on success, `none` when
reading the response raises `ChunkedEncodingError`. A failed attempt
writes nothing, because `.content` materialises the full body before
`copyfileobj` runs.
--------------------------------------------------------------------- -/

/-- The `for _ in range(5)` retry loop of `_fetch_segment`: `fuel`
attempts remain, `i` is the next attempt index. Returns the body that
got appended (or `none` when all attempts failed, i.e.
`SegmentDownloadError`) together with the list of GET requests issued,
one entry per attempt. -/
def fetchSegmentGo (net : String → Nat → Option (List Nat)) (u : String) :
    Nat → Nat → Option (List Nat) × List String
  | 0, _ => (none, [])
  | fuel + 1, i =>
    match net u i with
    | some b => (some b, [u])
    | none =>
      let r := fetchSegmentGo net u fuel (i + 1)
      (r.1, u :: r.2)

/-- `_fetch_segment`: up to 5 attempts, then `SegmentDownloadError`. -/
def fetchSegment (net : String → Nat → Option (List Nat)) (u : String) :
    Option (List Nat) × List String :=
  fetchSegmentGo net u 5 0

/-- Loop of `_fetch_segments` over the URL list, carrying
`visited_urls`. Returns the bytes appended to the file, the GET
requests issued in order, and — when some segment exhausted its retry
budget — the URL named by the raised `SegmentDownloadError` (the loop
stops there; bytes already written stay in the file). -/
def fetchSegmentsGo (net : String → Nat → Option (List Nat)) :
    List String → List String → List Nat × List String × Option String
  | [], _ => ([], [], none)
  | u :: rest, visited =>
    if u ∈ visited then fetchSegmentsGo net rest visited
    else
      match fetchSegment net u with
      | (none, reqs) => ([], reqs, some u)
      | (some b, reqs) =>
        let r := fetchSegmentsGo net rest (u :: visited)
        (b ++ r.1, reqs ++ r.2.1, r.2.2)

/-- `_fetch_segments`: starts with an empty `visited_urls` set and a
freshly truncated file. -/
def fetchSegments (net : String → Nat → Option (List Nat)) (urls : List String) :
    List Nat × List String × Option String :=
  fetchSegmentsGo net urls []

/-- Spec-side description for C3: the distinct URLs of a list in order
of first occurrence (`seen` holds the URLs already emitted). -/
def dedupFirstGo : List String → List String → List String
  | [], _ => []
  | u :: rest, seen =>
    if u ∈ seen then dedupFirstGo rest seen
    else u :: dedupFirstGo rest (u :: seen)

def dedupFirst (urls : List String) : List String :=
  dedupFirstGo urls []

/- ---------------------------------------------------------------------
`_get_segments_urls` (lines 127-141).
--------------------------------------------------------------------- -/

/-- Python truthiness of `r.height` (an int or `None`): falsy iff
`None` or `0`. -/
def heightTruthy : Option Nat → Bool
  | none => false
  | some n => n != 0

/-- Python truthiness of `segment_url.media` (a str or `None`): falsy
iff `None` or the empty string. -/
def strTruthy : Option String → Bool
  | none => false
  | some s => s != ""

/-- `list.index(y)`: index of the first equal element, `ValueError`
when absent. -/
def pyListIndex [DecidableEq α] : List α → α → Except PyErr Nat
  | [], _ => .error .valueError
  | x :: xs, y => if x = y then .ok 0 else (pyListIndex xs y).map (· + 1)

/-- Insert into / update a Python dict represented as an ordered
association list: an existing key keeps its position and gets the new
value, a new key is appended. -/
def dictInsert (d : List (String × List String)) (k : String) (v : List String) :
    List (String × List String) :=
  if d.any (fun p => p.1 = k) then
    d.map (fun p => if p.1 = k then (k, v) else p)
  else d ++ [(k, v)]

/-- Python dict lookup `d[k]` (keys are unique, so the first match is
the binding). -/
def dictGet (d : List (String × List String)) (k : String) : Option (List String) :=
  (d.find? (fun p => decide (p.1 = k))).map (·.2)

/-- The `media` URL suffix actually concatenated:
`(segment_url.media or '')`. -/
def mediaOrEmpty (s : SegmentURL) : String :=
  s.media.getD ""

/-- One iteration of the `for adaptation_set in ...adaptation_sets`
loop body:
`resolutions` list, the `representations[0].height` guard, `.index` of
the requested resolution (or index 0), then
`representations[idx].base_urls[0].base_url_value` prefixed to every
truthy `segment_url.media` of `segment_lists[0]`. -/
def processAdaptationSet (a : AdaptationSet) (res : Resolution) :
    Except PyErr (String × List String) := do
  let resolutions := a.representations.map (fun r => (r.width, r.height))
  let r0 ← exceptOfOption .indexError a.representations.head?
  let idx ← if heightTruthy r0.height then pyListIndex resolutions res else pure 0
  let rep ← exceptOfOption .indexError (a.representations.get? idx)
  let b ← exceptOfOption .indexError rep.base_urls.head?
  let sl ← exceptOfOption .indexError rep.segment_lists.head?
  return (a.mime_type,
    (sl.segment_urls.filter (fun s => strTruthy s.media)).map
      (fun s => b.base_url_value ++ mediaOrEmpty s))

/-- The loop of `_get_segments_urls`, accumulating the `result` dict. -/
def segmentsFromSetsGo (res : Resolution) :
    List AdaptationSet → List (String × List String) →
    Except PyErr (List (String × List String))
  | [], acc => .ok acc
  | a :: rest, acc =>
    match processAdaptationSet a res with
    | .error e => .error e
    | .ok (mt, urls) => segmentsFromSetsGo res rest (dictInsert acc mt urls)

/-- `_get_segments_urls` before the `except ValueError` handler. -/
def getSegmentsUrlsInner (m : MPEGDASH) (res : Resolution) :
    Except PyErr (List (String × List String)) :=
  match m.periods.head? with
  | none => .error .indexError
  | some p => segmentsFromSetsGo res p.adaptation_sets []

/-- `_get_segments_urls`: `except ValueError: raise InvalidResolution(...)`. -/
def getSegmentsUrls (m : MPEGDASH) (res : Resolution) :
    Except PyErr (List (String × List String)) :=
  match getSegmentsUrlsInner m res with
  | .error .valueError => .error .invalidResolution
  | r => r

/- ---------------------------------------------------------------------
`get_resolutions` (lines 149-152).
--------------------------------------------------------------------- -/

/-- Insertion into a list sorted ascending by `key`: the new element
goes before the first element of equal or larger key. Because
`sortByKey` sorts the tail before inserting the head, an element ends
up before all equal-key elements that followed it originally, which is
exactly Python's stable-sort order. -/
def insertSorted (key : α → Nat) (x : α) : List α → List α
  | [] => [x]
  | y :: ys => if key x ≤ key y then x :: y :: ys else y :: insertSorted key x ys

/-- Stable ascending sort by `key` (insertion sort), the order
`sorted(..., key=...)` produces. -/
def sortByKey (key : α → Nat) : List α → List α
  | [] => []
  | x :: xs => insertSorted key x (sortByKey key xs)

/-- `sorted(representations, key=lambda r: r.height)`. CPython compares
the keys pairwise: when more than one element is present and some key
is `None`, a `None`/int comparison raises `TypeError`; otherwise the
keys are ints and the result is the stable ascending order. -/
def pySortedByHeight (l : List Representation) : Except PyErr (List Representation) :=
  if 1 < l.length ∧ l.any (fun r => r.height = none) then .error .typeError
  else .ok (sortByKey (fun r => r.height.getD 0) l)

/-- The `for adaptation_set in ...adaptation_sets` loop of
`get_resolutions`: return the sorted `(width, height)` pairs of the
first adaptation set whose `representations[0].height` is truthy;
falling off the loop returns Python's implicit `None`. -/
def getResolutionsGo : List AdaptationSet →
    Except PyErr (Option (List (Option Nat × Option Nat)))
  | [] => .ok none
  | a :: rest =>
    match a.representations.head? with
    | none => .error .indexError
    | some r0 =>
      if heightTruthy r0.height then
        match pySortedByHeight a.representations with
        | .error e => .error e
        | .ok l => .ok (some (l.map (fun r => (r.width, r.height))))
      else getResolutionsGo rest

/-- `get_resolutions`. -/
def get_resolutions (m : MPEGDASH) :
    Except PyErr (Option (List (Option Nat × Option Nat))) :=
  match m.periods.head? with
  | none => .error .indexError
  | some p => getResolutionsGo p.adaptation_sets

/- ---------------------------------------------------------------------
`pathlib` fragments used by `download`: `Path.suffix` and
`Path.with_suffix`. Paths are plain strings; the name is the part after
the last '/'; the suffix is the name's part from its last dot, empty
when that dot is the name's first or last character.
--------------------------------------------------------------------- -/

/-- Scan the reversed characters of a path for the suffix of its final
component: `j` characters from the end have been passed. Returns the
suffix length (dot included) or `none`. A '/' before any dot means the
name has no dot; a dot as the name's last (`j = 0`) or first character
yields no suffix. -/
def revSuffixLen : List Char → Nat → Option Nat
  | [], _ => none
  | c :: rest, j =>
    if c = '/' then none
    else if c = '.' then
      if 1 ≤ j then
        match rest with
        | [] => none
        | c2 :: _ => if c2 = '/' then none else some (j + 1)
      else none
    else revSuffixLen rest (j + 1)

/-- `Path(s).suffix`. -/
def pySuffix (s : String) : String :=
  match revSuffixLen s.data.reverse 0 with
  | some n => ⟨(s.data.reverse.take n).reverse⟩
  | none => ""

/-- `Path(s).with_suffix(suffix)` for a non-empty, dot-initial, slash-free
`suffix` (the only shapes `download` passes): drop the old suffix, if
any, and append the new one. -/
def pyWithSuffix (s suffix : String) : String :=
  ⟨(s.data.reverse.drop (pySuffix s).data.length).reverse ++ suffix.data⟩

/- ---------------------------------------------------------------------
`download` (lines 154-194).

Filesystem and subprocess effects are recorded as a trace of actions:
the bytes fetched into each file follow from `fetchSegments`, and the
decrypt/merge/move subprocess or filesystem steps are opaque external
tools (`mp4decrypt`, `ffmpeg`, `shutil.move`).
--------------------------------------------------------------------- -/

inductive Action where
  /-- `_fetch_segments(urls, path)` writing into `path`. -/
  | fetch (urls : List String) (path : String)
  /-- `_decrypt_video(src, dst, key)`. -/
  | decrypt (src dst : String) (key : String)
  /-- `_merge_tracks(srcs, dst)` — the ffmpeg muxer. -/
  | merge (srcs : List String) (dst : String)
  /-- `shutil.move(src, dst)`. -/
  | move (src dst : String)
  deriving DecidableEq, Repr

/-- One element of the `elements` list: segment URLs, the `type` label
and the container `suffix`. -/
structure TrackElement where
  urls : List String
  ty : String
  suffix : String
  deriving DecidableEq, Repr

/-- The `for el in elements` fetch loop: computes `tmp_path` and
`enc_path` per element, fetches into `enc_path` when the key is truthy
(`fetch_path = el['enc_path'] if key else tmp_path` — `None` and the
empty string are both falsy) else into `tmp_path`, and raises
`SegmentDownloadError` as soon as one segment exhausts its retries.
Returns the fetch actions and each element's `(enc_path, tmp_path)`
pair. -/
def fetchPhase (net : String → Nat → Option (List Nat)) (keyTruthy : Bool)
    (tmpBase : String) :
    List TrackElement → Except PyErr (List Action × List (String × String))
  | [] => .ok ([], [])
  | el :: rest => do
    let tmp := tmpBase ++ "_" ++ el.ty ++ el.suffix
    let enc := pyWithSuffix tmp (pySuffix tmp ++ ".enc")
    let fetchPath := if keyTruthy then enc else tmp
    match (fetchSegments net el.urls).2.2 with
    | some u => .error (.segmentDownloadError u)
    | none => do
      let (acts, paths) ← fetchPhase net keyTruthy tmpBase rest
      return (.fetch el.urls fetchPath :: acts, (enc, tmp) :: paths)

/-- `download(filepath, resolution)`. `tmpBase` is
`str(self.temp_path / self.kinescope_video.video_id)` and `audioOnly`
is the `audio_only` flag. `resolution` is the optional argument: when
absent (falsy), the code takes `self.get_resolutions()[-1]` — `None[-1]`
is a `TypeError` for an audio-only manifest, `[][-1]` an `IndexError`. -/
def download (m : MPEGDASH) (resp : LicResponse)
    (net : String → Nat → Option (List Nat)) (audioOnly : Bool)
    (tmpBase filepath : String) (resolution : Option Resolution) :
    Except PyErr (List Action) := do
  let res ← match resolution with
    | some r => pure r
    | none =>
      match ← get_resolutions m with
      | none => Except.error .typeError
      | some rs => exceptOfOption .indexError rs.getLast?
  let key ← getLicenseKey m resp
  let d1 ← getSegmentsUrls m res
  let audioUrls ← exceptOfOption .keyError (dictGet d1 "audio/mp4")
  let d2 ← getSegmentsUrls m res
  let videoUrls ← exceptOfOption .keyError (dictGet d2 "video/mp4")
  -- `elements = [audio, video]`, then `elements.pop()` when audio_only
  let elements :=
    if audioOnly then [⟨audioUrls, "Audio", ".aac"⟩]
    else [⟨audioUrls, "Audio", ".aac"⟩, ⟨videoUrls, "Video", ".mp4"⟩]
  -- both `fetch_path = ... if key else ...` and `if key:` test Python
  -- truthiness of the key: `None` and the empty string are falsy
  let (fetchActs, paths) ← fetchPhase net (strTruthy key) tmpBase elements
  let decActs := match key with
    | some k => if k ≠ "" then paths.map (fun p => Action.decrypt p.1 p.2 k) else []
    | none => []
  let lastSuffix ← exceptOfOption .indexError (elements.map (·.suffix)).getLast?
  let outPath := pyWithSuffix filepath lastSuffix
  let finalAct ←
    if audioOnly then do
      let first ← exceptOfOption .indexError paths.head?
      pure (Action.move first.2 outPath)
    else
      pure (Action.merge (paths.map (·.2)) outPath)
  return fetchActs ++ decActs ++ [finalAct]

/- ---------------------------------------------------------------------
Concrete instances used by witnesses and counterexamples.
--------------------------------------------------------------------- -/

/-- Manifest whose first adaptation set carries a ClearKey content
protection with KID `aabbccdd`. -/
def mProtected : MPEGDASH :=
  ⟨[⟨[⟨"video/mp4", [⟨some "aabbccdd"⟩], []⟩]⟩]⟩

/-- License reply `{"keys": [{"k": "cXdlcnR5"}]}`. -/
def respQwerty : LicResponse := ⟨some [⟨some "cXdlcnR5"⟩]⟩

/-- License reply `{"keys": []}`. -/
def respEmptyKeys : LicResponse := ⟨some []⟩

/-- License reply without a `keys` field. -/
def respNoKeys : LicResponse := ⟨none⟩

/-- License reply whose first key object has no `k` field. -/
def respNoK : LicResponse := ⟨some [⟨none⟩]⟩

/-- An audio adaptation set: one representation without dimensions,
three segments, one of which has no `media` attribute. -/
def asAudio : AdaptationSet :=
  ⟨"audio/mp4", [],
    [⟨none, none, [⟨"http://a/"⟩], [⟨[⟨some "s1"⟩, ⟨none⟩, ⟨some "s2"⟩]⟩]⟩]⟩

/-- A video adaptation set with 360p and 720p representations (listed
unsorted, 720p first). -/
def asVideo : AdaptationSet :=
  ⟨"video/mp4", [],
    [⟨some 1280, some 720, [⟨"http://v7/"⟩], [⟨[⟨some "v7a"⟩]⟩]⟩,
     ⟨some 640, some 360, [⟨"http://v3/"⟩], [⟨[⟨some "v3a"⟩]⟩]⟩]⟩

/-- An unencrypted manifest with the audio and video adaptation sets. -/
def mPlain : MPEGDASH := ⟨[⟨[asAudio, asVideo]⟩]⟩

/-- The same first period as `mPlain` plus a divergent second period
(used for the first-period-only observation). -/
def mTwoPeriods : MPEGDASH :=
  ⟨[⟨[asAudio, asVideo]⟩, ⟨[⟨"video/mp4", [⟨some "00"⟩], []⟩]⟩]⟩

/-- A manifest whose only adaptation set has an empty representation
list. -/
def mEmptyReps : MPEGDASH := ⟨[⟨[⟨"audio/mp4", [], []⟩]⟩]⟩

/-- A network that always succeeds, serving `[7]` for every URL. -/
def netConst : String → Nat → Option (List Nat) := fun _ _ => some [7]

/-- `mPlain` with a ClearKey content protection (KID `aabbccdd`) on its
first adaptation set. -/
def mPlainProt : MPEGDASH :=
  ⟨[⟨[⟨"audio/mp4", [⟨some "aabbccdd"⟩],
      [⟨none, none, [⟨"http://a/"⟩], [⟨[⟨some "s1"⟩, ⟨none⟩, ⟨some "s2"⟩]⟩]⟩]⟩,
     asVideo]⟩]⟩

/-- License reply `{"keys": [{"k": ""}]}`: the empty `k` decodes to the
empty byte string, so the derived key is the falsy `''`. -/
def respEmptyK : LicResponse := ⟨some [⟨some ""⟩]⟩

/- ---------------------------------------------------------------------
Theorems.
--------------------------------------------------------------------- -/

theorem getLicenseKeyInner_period (m : MPEGDASH) (resp : LicResponse)
    (p : Period) (hp : m.periods.head? = some p) :
    getLicenseKeyInner m resp = licenseFromPeriod p resp := by
  unfold getLicenseKeyInner
  rw [hp]

/-- C1: with a content-protection descriptor on the first adaptation
set of the first period (with a hex-decodable KID) and a license reply
carrying a first key whose `k` field, padded with `==`, base64-decodes
to `bs`, `_get_license_key` returns the hex encoding of `bs`. -/
theorem C1_license_key_is_hex_of_b64 (m : MPEGDASH) (resp : LicResponse)
    (p : Period) (hp : m.periods.head? = some p)
    (a : AdaptationSet) (ha : p.adaptation_sets.head? = some a)
    (cp : ContentProtection) (hcp : a.content_protections.head? = some cp)
    (kid : String) (hkid : cp.cenc_default_kid = some kid)
    (kb : List Nat) (hkb : bytesFromHex (stripDashes kid) = some kb)
    (ks : List KeyObj) (hkeys : resp.keys = some ks)
    (k0 : KeyObj) (hk0 : ks.head? = some k0)
    (kstr : String) (hk : k0.k = some kstr)
    (bs : List Nat) (hbs : b64decodePy (kstr ++ "==") = some bs) :
    getLicenseKey m resp = .ok (some (bytesHex bs)) := by
  have hne : a.content_protections ≠ [] := by
    intro hnil
    rw [hnil] at hcp
    exact Option.noConfusion hcp
  unfold getLicenseKey
  rw [getLicenseKeyInner_period m resp p hp]
  simp only [licenseFromPeriod, ha, hne, hcp, hkid, hkb, hkeys, hk0, hk, hbs,
    ne_eq, not_false_eq_true, if_true]

/-- Witness for C1 at the spec's example: KID `aabbccdd`, reply
`{"keys":[{"k":"cXdlcnR5"}]}`; `cXdlcnR5` decodes to `qwerty`, whose
hex is `717765727479`. -/
theorem C1_witness :
    getLicenseKey mProtected respQwerty = .ok (some "717765727479") := by
  have h := C1_license_key_is_hex_of_b64 mProtected respQwerty
    _ rfl _ rfl _ rfl _ rfl [0xaa, 0xbb, 0xcc, 0xdd] (by decide)
    _ rfl _ rfl _ rfl [113, 119, 101, 114, 116, 121] (by decide)
  rw [show bytesHex [113, 119, 101, 114, 116, 121] = "717765727479" from by decide] at h
  exact h

/-- C2 counterexample: on the protected manifest, a reply whose `keys`
list is empty makes `_get_license_key` raise `IndexError`
(`['keys'][0]` on an empty list), which the `except KeyError` handler
does not catch — not `UnsupportedEncryption` as the claim states. -/
theorem C2_counterexample :
    getLicenseKey mProtected respEmptyKeys = .error .indexError ∧
    getLicenseKey mProtected respEmptyKeys ≠ .error .unsupportedEncryption := by
  refine ⟨rfl, fun h => ?_⟩
  rw [show getLicenseKey mProtected respEmptyKeys = .error .indexError from rfl] at h
  injection h with h
  exact PyErr.noConfusion h

/-- C2 amended: with a content-protection descriptor (and hex-decodable
KID) on the first adaptation set of the first period, a reply without a
`keys` field and a reply whose first key object has no `k` field both
fail with `UnsupportedEncryption` and nothing else, while a reply with
an empty `keys` list fails with an uncaught `IndexError`. -/
theorem C2_license_error_shapes (m : MPEGDASH) (resp : LicResponse)
    (p : Period) (hp : m.periods.head? = some p)
    (a : AdaptationSet) (ha : p.adaptation_sets.head? = some a)
    (cp : ContentProtection) (hcp : a.content_protections.head? = some cp)
    (kid : String) (hkid : cp.cenc_default_kid = some kid)
    (kb : List Nat) (hkb : bytesFromHex (stripDashes kid) = some kb) :
    (resp.keys = none → getLicenseKey m resp = .error .unsupportedEncryption) ∧
    (resp.keys = some [] → getLicenseKey m resp = .error .indexError) ∧
    (∀ k0 ks, resp.keys = some (k0 :: ks) → k0.k = none →
      getLicenseKey m resp = .error .unsupportedEncryption) := by
  have hne : a.content_protections ≠ [] := by
    intro hnil
    rw [hnil] at hcp
    exact Option.noConfusion hcp
  refine ⟨fun hkeys => ?_, fun hkeys => ?_, fun k0 ks hkeys hknone => ?_⟩
  · unfold getLicenseKey
    rw [getLicenseKeyInner_period m resp p hp]
    simp only [licenseFromPeriod, ha, hne, hcp, hkid, hkb, hkeys,
      ne_eq, not_false_eq_true, if_true]
  · unfold getLicenseKey
    rw [getLicenseKeyInner_period m resp p hp]
    simp only [licenseFromPeriod, ha, hne, hcp, hkid, hkb, hkeys,
      ne_eq, not_false_eq_true, if_true, List.head?_nil]
  · unfold getLicenseKey
    rw [getLicenseKeyInner_period m resp p hp]
    simp only [licenseFromPeriod, ha, hne, hcp, hkid, hkb, hkeys, hknone,
      ne_eq, not_false_eq_true, if_true, List.head?_cons]

/-- Witness for the amended C2 on the protected manifest: the three
reply shapes produce exactly the stated errors. -/
theorem C2_witness :
    getLicenseKey mProtected respNoKeys = .error .unsupportedEncryption ∧
    getLicenseKey mProtected respEmptyKeys = .error .indexError ∧
    getLicenseKey mProtected respNoK = .error .unsupportedEncryption := by
  have h := C2_license_error_shapes mProtected respNoKeys
    _ rfl _ rfl _ rfl _ rfl [0xaa, 0xbb, 0xcc, 0xdd] (by decide)
  have h2 := C2_license_error_shapes mProtected respEmptyKeys
    _ rfl _ rfl _ rfl _ rfl [0xaa, 0xbb, 0xcc, 0xdd] (by decide)
  have h3 := C2_license_error_shapes mProtected respNoK
    _ rfl _ rfl _ rfl _ rfl [0xaa, 0xbb, 0xcc, 0xdd] (by decide)
  exact ⟨h.1 rfl, h2.2.1 rfl, h3.2.2 ⟨none⟩ [] rfl rfl⟩

theorem dedupFirstGo_mem :
    ∀ (urls seen : List String) (u : String),
      u ∈ dedupFirstGo urls seen ↔ u ∈ urls ∧ u ∉ seen := by
  intro urls
  induction urls with
  | nil => intro seen u; simp [dedupFirstGo]
  | cons v rest ih =>
    intro seen u
    by_cases hv : v ∈ seen
    · simp only [dedupFirstGo, if_pos hv, ih, List.mem_cons]
      constructor
      · exact fun ⟨h1, h2⟩ => ⟨Or.inr h1, h2⟩
      · rintro ⟨h1 | h1, h2⟩
        · exact absurd (h1 ▸ hv) h2
        · exact ⟨h1, h2⟩
    · simp only [dedupFirstGo, if_neg hv, List.mem_cons, ih, List.mem_cons]
      constructor
      · rintro (h | ⟨h1, h2⟩)
        · exact ⟨Or.inl h, h ▸ hv⟩
        · exact ⟨Or.inr h1, fun hu => h2 (Or.inr hu)⟩
      · rintro ⟨h1 | h1, h2⟩
        · exact Or.inl h1
        · by_cases huv : u = v
          · exact Or.inl huv
          · exact Or.inr ⟨h1, fun hu => (hu.elim huv h2)⟩

theorem dedupFirstGo_nodup :
    ∀ (urls seen : List String), (dedupFirstGo urls seen).Nodup := by
  intro urls
  induction urls with
  | nil => intro seen; simp [dedupFirstGo]
  | cons v rest ih =>
    intro seen
    by_cases hv : v ∈ seen
    · simpa only [dedupFirstGo, if_pos hv] using ih seen
    · simp only [dedupFirstGo, if_neg hv, List.nodup_cons]
      exact ⟨fun hmem => ((dedupFirstGo_mem rest (v :: seen) v).mp hmem).2
        (List.mem_cons_self v seen), ih (v :: seen)⟩

/-- A segment whose first GET succeeds is fetched with a single request. -/
theorem fetchSegment_first_ok (net : String → Nat → Option (List Nat))
    (u : String) (b : List Nat) (h : net u 0 = some b) :
    fetchSegment net u = (some b, [u]) := by
  unfold fetchSegment fetchSegmentGo
  rw [h]

theorem fetchSegmentsGo_all_ok (net : String → Nat → Option (List Nat))
    (body : String → List Nat) :
    ∀ (urls seen : List String),
      (∀ u ∈ urls, net u 0 = some (body u)) →
      fetchSegmentsGo net urls seen =
        (((dedupFirstGo urls seen).map body).flatten, dedupFirstGo urls seen, none) := by
  intro urls
  induction urls with
  | nil => intro seen _; rfl
  | cons u rest ih =>
    intro seen h
    have hu : net u 0 = some (body u) := h u (List.mem_cons_self u rest)
    have hrest : ∀ v ∈ rest, net v 0 = some (body v) :=
      fun v hv => h v (List.mem_cons_of_mem u hv)
    by_cases hv : u ∈ seen
    · simp only [fetchSegmentsGo, if_pos hv, dedupFirstGo, ih seen hrest]
    · simp only [fetchSegmentsGo, if_neg hv, dedupFirstGo,
        fetchSegment_first_ok net u (body u) hu, ih (u :: seen) hrest,
        List.map_cons, List.flatten_cons, List.singleton_append]

/-- C3: when every URL downloads successfully on its first attempt,
`_fetch_segments` issues exactly one GET per distinct URL — the request
list is the duplicate-free first-occurrence subsequence of the input —
and the file's bytes are the concatenation of the distinct segments'
bodies in first-occurrence order. -/
theorem C3_fetch_dedup_concat (net : String → Nat → Option (List Nat))
    (body : String → List Nat) (urls : List String)
    (h : ∀ u ∈ urls, net u 0 = some (body u)) :
    fetchSegments net urls =
      (((dedupFirst urls).map body).flatten, dedupFirst urls, none) ∧
    (dedupFirst urls).Nodup ∧
    (∀ u, u ∈ dedupFirst urls ↔ u ∈ urls) := by
  refine ⟨fetchSegmentsGo_all_ok net body urls [] h, dedupFirstGo_nodup urls [], ?_⟩
  intro u
  rw [dedupFirst, dedupFirstGo_mem urls [] u]
  simp

/-- Witness for C3: list `[u, w, u]` with bodies `[1]` for `u` and
`[2]` for `w` yields file bytes `[1, 2]` and requests `[u, w]`. -/
theorem C3_witness :
    fetchSegments (fun u _ => if u = "u" then some [1] else some [2]) ["u", "w", "u"] =
      ([1, 2], ["u", "w"], none) ∧
    (["u", "w"] : List String).Nodup ∧
    (∀ v, v ∈ (["u", "w"] : List String) ↔ v ∈ (["u", "w", "u"] : List String)) := by
  have h := C3_fetch_dedup_concat (fun u _ => if u = "u" then some [1] else some [2])
    (fun u => if u = "u" then [1] else [2]) ["u", "w", "u"] (by decide)
  have hd : dedupFirst ["u", "w", "u"] = ["u", "w"] := by decide
  refine ⟨?_, by decide, ?_⟩
  · rw [h.1, hd]
    rfl
  · intro v
    have := h.2.2 v
    rwa [hd] at this

theorem fetchSegmentGo_length_le (net : String → Nat → Option (List Nat)) (u : String) :
    ∀ (fuel i : Nat), (fetchSegmentGo net u fuel i).2.length ≤ fuel := by
  intro fuel
  induction fuel with
  | zero => intro i; simp [fetchSegmentGo]
  | succ n ih =>
    intro i
    unfold fetchSegmentGo
    cases net u i with
    | some b => simp
    | none => simpa using Nat.succ_le_succ (ih (i + 1))

/-- C4: `_fetch_segment` makes at most 5 GET attempts; when attempts
0–3 raise the transient `ChunkedEncodingError` and attempt 4 succeeds
with body `b`, the fetch succeeds and `b` is appended to the file
exactly once; when all 5 attempts fail, `_fetch_segments` stops with
`SegmentDownloadError` naming the URL and issues no request for any
later segment of the track. -/
theorem C4_retry_budget (net : String → Nat → Option (List Nat))
    (u : String) (b : List Nat) (rest : List String) :
    (fetchSegment net u).2.length ≤ 5 ∧
    ((∀ i < 4, net u i = none) → net u 4 = some b →
      fetchSegment net u = (some b, [u, u, u, u, u]) ∧
      fetchSegments net [u] = (b, [u, u, u, u, u], none)) ∧
    ((∀ i < 5, net u i = none) →
      fetchSegments net (u :: rest) = ([], [u, u, u, u, u], some u)) := by
  refine ⟨fetchSegmentGo_length_le net u 5 0, fun h h4 => ?_, fun h => ?_⟩
  · have hseg : fetchSegment net u = (some b, [u, u, u, u, u]) := by
      unfold fetchSegment fetchSegmentGo
      rw [h 0 (by omega)]
      unfold fetchSegmentGo
      rw [h 1 (by omega)]
      unfold fetchSegmentGo
      rw [h 2 (by omega)]
      unfold fetchSegmentGo
      rw [h 3 (by omega)]
      unfold fetchSegmentGo
      rw [h4]
    refine ⟨hseg, ?_⟩
    unfold fetchSegments fetchSegmentsGo
    rw [if_neg (List.not_mem_nil u)]
    rw [hseg]
    simp [fetchSegmentsGo]
  · have hseg : fetchSegment net u = (none, [u, u, u, u, u]) := by
      unfold fetchSegment fetchSegmentGo
      rw [h 0 (by omega)]
      unfold fetchSegmentGo
      rw [h 1 (by omega)]
      unfold fetchSegmentGo
      rw [h 2 (by omega)]
      unfold fetchSegmentGo
      rw [h 3 (by omega)]
      unfold fetchSegmentGo
      rw [h 4 (by omega)]
      rfl
    unfold fetchSegments fetchSegmentsGo
    rw [if_neg (List.not_mem_nil u)]
    rw [hseg]

/-- Witness for C4: a URL failing on attempts 0–3 and serving `[9]` on
attempt 4 succeeds with five requests; a URL that always fails aborts
the track `["u", "w"]` with `SegmentDownloadError` for `u` after five
requests, and `w` is never requested. -/
theorem C4_witness :
    (fetchSegment (fun _ i => if i = 4 then some [9] else none) "u" =
      (some [9], ["u", "u", "u", "u", "u"]) ∧
     fetchSegments (fun _ i => if i = 4 then some [9] else none) ["u"] =
      ([9], ["u", "u", "u", "u", "u"], none)) ∧
    fetchSegments (fun _ _ => none) ["u", "w"] =
      ([], ["u", "u", "u", "u", "u"], some "u") := by
  constructor
  · exact (C4_retry_budget (fun _ i => if i = 4 then some [9] else none) "u" [9] []).2.1
      (by intro i hi; interval_cases i <;> rfl) rfl
  · exact (C4_retry_budget (fun _ _ => none) "u" [] ["w"]).2.2 (fun _ _ => rfl)

theorem pyListIndex_of_find?_some [DecidableEq α] (key : β → α) :
    ∀ (l : List β) (y : α) (rep : β),
      l.find? (fun r => decide (key r = y)) = some rep →
      ∃ n, pyListIndex (l.map key) y = .ok n ∧ l.get? n = some rep := by
  intro l
  induction l with
  | nil => intro y rep h; simp [List.find?] at h
  | cons x xs ih =>
    intro y rep h
    by_cases hx : key x = y
    · rw [List.find?_cons_of_pos _ (by simpa using hx)] at h
      exact ⟨0, by simp [pyListIndex, hx], by simpa using (Option.some.inj h).symm ▸ rfl⟩
    · rw [List.find?_cons_of_neg _ (by simpa using hx)] at h
      obtain ⟨n, hn, hg⟩ := ih y rep h
      exact ⟨n + 1, by simp [pyListIndex, hx, hn, Except.map], by simpa using hg⟩

theorem pyListIndex_of_find?_none [DecidableEq α] (key : β → α) :
    ∀ (l : List β) (y : α),
      l.find? (fun r => decide (key r = y)) = none →
      pyListIndex (l.map key) y = .error .valueError := by
  intro l
  induction l with
  | nil => intro y _; rfl
  | cons x xs ih =>
    intro y h
    by_cases hx : key x = y
    · rw [List.find?_cons_of_pos _ (by simpa using hx)] at h
      exact Option.noConfusion h
    · rw [List.find?_cons_of_neg _ (by simpa using hx)] at h
      simp [pyListIndex, hx, ih y h, Except.map]

/-- When `representations[0].height` is truthy and some representation
matches the requested resolution exactly, the loop body selects the
first such representation. -/
theorem processAS_heights_match (a : AdaptationSet) (res : Resolution)
    (r0 : Representation) (h0 : a.representations.head? = some r0)
    (ht : heightTruthy r0.height = true)
    (rep : Representation)
    (hfind : a.representations.find? (fun r => decide ((r.width, r.height) = res)) = some rep)
    (b : BaseURL) (hb : rep.base_urls.head? = some b)
    (sl : SegmentList) (hsl : rep.segment_lists.head? = some sl) :
    processAdaptationSet a res = .ok (a.mime_type,
      (sl.segment_urls.filter (fun s => strTruthy s.media)).map
        (fun s => b.base_url_value ++ mediaOrEmpty s)) := by
  obtain ⟨n, hn, hg⟩ := pyListIndex_of_find?_some (fun r => (r.width, r.height))
    a.representations res rep hfind
  rw [List.get?_eq_getElem?] at hg
  unfold processAdaptationSet
  simp [exceptOfOption, h0, ht, hn, hg, hb, hsl, Bind.bind, Except.bind,
    pure, Except.pure]

/-- When `representations[0].height` is truthy and no representation
matches exactly, the loop body raises `ValueError` (from `.index`). -/
theorem processAS_heights_nomatch (a : AdaptationSet) (res : Resolution)
    (r0 : Representation) (h0 : a.representations.head? = some r0)
    (ht : heightTruthy r0.height = true)
    (hfind : a.representations.find? (fun r => decide ((r.width, r.height) = res)) = none) :
    processAdaptationSet a res = .error .valueError := by
  have hn := pyListIndex_of_find?_none (fun r => (r.width, r.height))
    a.representations res hfind
  unfold processAdaptationSet
  simp [exceptOfOption, h0, ht, hn, Bind.bind, Except.bind]

/-- When `representations[0].height` is falsy, the loop body uses the
first representation unconditionally. -/
theorem processAS_no_height (a : AdaptationSet) (res : Resolution)
    (r0 : Representation) (h0 : a.representations.head? = some r0)
    (ht : heightTruthy r0.height = false)
    (b : BaseURL) (hb : r0.base_urls.head? = some b)
    (sl : SegmentList) (hsl : r0.segment_lists.head? = some sl) :
    processAdaptationSet a res = .ok (a.mime_type,
      (sl.segment_urls.filter (fun s => strTruthy s.media)).map
        (fun s => b.base_url_value ++ mediaOrEmpty s)) := by
  have hg : a.representations[0]? = some r0 := by
    cases hl : a.representations with
    | nil => rw [hl] at h0; exact Option.noConfusion h0
    | cons x xs => rw [hl] at h0; simpa using h0
  unfold processAdaptationSet
  simp [exceptOfOption, h0, ht, hg, hb, hsl, Bind.bind, Except.bind,
    pure, Except.pure]

theorem head?_mem {l : List α} {x : α} (h : l.head? = some x) : x ∈ l := by
  cases l with
  | nil => exact Option.noConfusion h
  | cons y ys =>
    rw [List.head?_cons] at h
    exact (Option.some.inj h) ▸ List.mem_cons_self y ys

/-- C5: per adaptation set of the first period — when its
representations carry truthy heights, `_get_segments_urls` selects the
(first) representation whose `(width, height)` equals the requested
resolution exactly and raises `InvalidResolution` when none matches;
when the representations carry no truthy height it uses the first one
unconditionally; the produced list is the selected representation's
first base URL prefixed to each segment's non-empty `media` fragment,
in manifest order. -/
theorem C5_segment_url_resolution (a : AdaptationSet) (res : Resolution) :
    ((∀ r ∈ a.representations, heightTruthy r.height = true) →
      (∀ rep, a.representations.find?
          (fun r => decide ((r.width, r.height) = res)) = some rep →
        ∀ b, rep.base_urls.head? = some b →
        ∀ sl, rep.segment_lists.head? = some sl →
        processAdaptationSet a res = .ok (a.mime_type,
          (sl.segment_urls.filter (fun s => strTruthy s.media)).map
            (fun s => b.base_url_value ++ mediaOrEmpty s))) ∧
      (a.representations ≠ [] →
        a.representations.find?
          (fun r => decide ((r.width, r.height) = res)) = none →
        processAdaptationSet a res = .error .valueError ∧
        getSegmentsUrls ⟨[⟨[a]⟩]⟩ res = .error .invalidResolution)) ∧
    ((∀ r ∈ a.representations, heightTruthy r.height = false) →
      ∀ r0, a.representations.head? = some r0 →
      ∀ b, r0.base_urls.head? = some b →
      ∀ sl, r0.segment_lists.head? = some sl →
      processAdaptationSet a res = .ok (a.mime_type,
        (sl.segment_urls.filter (fun s => strTruthy s.media)).map
          (fun s => b.base_url_value ++ mediaOrEmpty s))) := by
  refine ⟨fun hall => ⟨fun rep hfind b hb sl hsl => ?_, fun hne hfind => ?_⟩,
    fun hfalse r0 h0 b hb sl hsl => ?_⟩
  · cases hl : a.representations with
    | nil => rw [hl] at hfind; simp [List.find?] at hfind
    | cons r0 tl =>
      have h0 : a.representations.head? = some r0 := by rw [hl]; rfl
      exact processAS_heights_match a res r0 h0
        (hall r0 (head?_mem h0)) rep hfind b hb sl hsl
  · cases hl : a.representations with
    | nil => exact absurd hl hne
    | cons r0 tl =>
      have h0 : a.representations.head? = some r0 := by rw [hl]; rfl
      have hproc := processAS_heights_nomatch a res r0 h0
        (hall r0 (head?_mem h0)) hfind
      refine ⟨hproc, ?_⟩
      simp [getSegmentsUrls, getSegmentsUrlsInner, segmentsFromSetsGo, hproc]
  · exact processAS_no_height a res r0 h0 (hfalse r0 (head?_mem h0)) b hb sl hsl

/-- Witness for C5: exact-match selection on the video set (the 360p
representation), first-representation selection on the audio set
(dropping the `media`-less segment), and `InvalidResolution` for an
absent resolution. -/
theorem C5_witness :
    processAdaptationSet asVideo (some 640, some 360) =
      .ok ("video/mp4", ["http://v3/v3a"]) ∧
    processAdaptationSet asAudio (some 640, some 360) =
      .ok ("audio/mp4", ["http://a/s1", "http://a/s2"]) ∧
    getSegmentsUrls ⟨[⟨[asVideo]⟩]⟩ (some 100, some 99) = .error .invalidResolution := by
  refine ⟨?_, ?_, ?_⟩
  · exact ((C5_segment_url_resolution asVideo (some 640, some 360)).1 (by decide)).1
      ⟨some 640, some 360, [⟨"http://v3/"⟩], [⟨[⟨some "v3a"⟩]⟩]⟩ (by decide)
      ⟨"http://v3/"⟩ rfl ⟨[⟨some "v3a"⟩]⟩ rfl
  · exact (C5_segment_url_resolution asAudio (some 640, some 360)).2 (by decide)
      ⟨none, none, [⟨"http://a/"⟩], [⟨[⟨some "s1"⟩, ⟨none⟩, ⟨some "s2"⟩]⟩]⟩ rfl
      ⟨"http://a/"⟩ rfl ⟨[⟨some "s1"⟩, ⟨none⟩, ⟨some "s2"⟩]⟩ rfl
  · exact (((C5_segment_url_resolution asVideo (some 100, some 99)).1 (by decide)).2
      (by decide) (by decide)).2

theorem insertSorted_perm (key : α → Nat) (x : α) :
    ∀ l : List α, (insertSorted key x l).Perm (x :: l) := by
  intro l
  induction l with
  | nil => exact List.Perm.refl [x]
  | cons y ys ih =>
    by_cases h : key x ≤ key y
    · rw [insertSorted, if_pos h]
    · rw [insertSorted, if_neg h]
      exact (ih.cons y).trans (List.Perm.swap x y ys)

theorem sortByKey_perm (key : α → Nat) :
    ∀ l : List α, (sortByKey key l).Perm l := by
  intro l
  induction l with
  | nil => exact List.Perm.refl []
  | cons x xs ih =>
    exact (insertSorted_perm key x _).trans (ih.cons x)

theorem insertSorted_pairwise (key : α → Nat) (x : α) :
    ∀ l : List α, l.Pairwise (fun a b => key a ≤ key b) →
      (insertSorted key x l).Pairwise (fun a b => key a ≤ key b) := by
  intro l
  induction l with
  | nil => intro _; simp [insertSorted]
  | cons y ys ih =>
    intro hp
    rw [List.pairwise_cons] at hp
    obtain ⟨hy, hys⟩ := hp
    by_cases h : key x ≤ key y
    · rw [insertSorted, if_pos h, List.pairwise_cons]
      refine ⟨fun z hz => ?_, List.pairwise_cons.mpr ⟨hy, hys⟩⟩
      rcases List.mem_cons.mp hz with rfl | hz'
      · exact h
      · exact le_trans h (hy z hz')
    · rw [insertSorted, if_neg h, List.pairwise_cons]
      refine ⟨fun z hz => ?_, ih hys⟩
      rcases List.mem_cons.mp ((insertSorted_perm key x ys).mem_iff.mp hz) with rfl | hz'
      · exact le_of_not_le h
      · exact hy z hz'

theorem sortByKey_pairwise (key : α → Nat) :
    ∀ l : List α, (sortByKey key l).Pairwise (fun a b => key a ≤ key b) := by
  intro l
  induction l with
  | nil => simp [sortByKey]
  | cons x xs ih => exact insertSorted_pairwise key x _ ih

theorem getResolutionsGo_append_skip :
    ∀ (pre l : List AdaptationSet),
      (∀ bset ∈ pre, ∃ r0, bset.representations.head? = some r0 ∧
        heightTruthy r0.height = false) →
      getResolutionsGo (pre ++ l) = getResolutionsGo l := by
  intro pre
  induction pre with
  | nil => intro l _; rfl
  | cons bset pre' ih =>
    intro l h
    obtain ⟨r0, h0, hf⟩ := h bset (List.mem_cons_self bset pre')
    rw [List.cons_append, getResolutionsGo, h0]
    simp only [hf, Bool.false_eq_true, if_false]
    exact ih l (fun b hb => h b (List.mem_cons_of_mem _ hb))

/-- C6 counterexample: on a manifest whose only adaptation set has no
representations — a manifest with no video adaptation set — the claim
says `get_resolutions` returns the empty/undefined result rather than
raising, but `adaptation_set.representations[0]` raises `IndexError`. -/
theorem C6_counterexample :
    get_resolutions mEmptyReps = .error .indexError ∧
    get_resolutions mEmptyReps ≠ .ok none := by
  refine ⟨rfl, fun h => ?_⟩
  rw [show get_resolutions mEmptyReps = .error .indexError from rfl] at h
  exact Except.noConfusion h

/-- C6 amended: provided every adaptation set scanned has at least one
representation, `get_resolutions` returns, for the first adaptation set
whose first representation carries a non-zero height (here with all
heights present, non-zero and distinct), exactly its representations'
`(width, height)` pairs sorted strictly ascending by height; when no
adaptation set qualifies it returns Python's `None` rather than
raising. An adaptation set with an empty representation list instead
raises `IndexError`. -/
theorem C6_resolutions_sorted (m : MPEGDASH) (p : Period)
    (hp : m.periods.head? = some p) :
    (∀ pre a post, p.adaptation_sets = pre ++ a :: post →
      (∀ bset ∈ pre, ∃ r0, bset.representations.head? = some r0 ∧
          heightTruthy r0.height = false) →
      a.representations ≠ [] →
      (∀ r ∈ a.representations, ∃ h, r.height = some h ∧ h ≠ 0) →
      (a.representations.map (fun r => r.height)).Nodup →
      get_resolutions m = .ok (some ((sortByKey (fun r => r.height.getD 0)
          a.representations).map (fun r => (r.width, r.height)))) ∧
      ((sortByKey (fun r => r.height.getD 0) a.representations).map
          (fun r => (r.width, r.height))).length = a.representations.length ∧
      ((sortByKey (fun r => r.height.getD 0) a.representations).map
          (fun r => (r.width, r.height))).Pairwise
        (fun x y => x.2.getD 0 < y.2.getD 0) ∧
      ((sortByKey (fun r => r.height.getD 0) a.representations).map
          (fun r => (r.width, r.height))).Perm
        (a.representations.map (fun r => (r.width, r.height)))) ∧
    ((∀ aset ∈ p.adaptation_sets, ∃ r0, aset.representations.head? = some r0 ∧
        heightTruthy r0.height = false) →
      get_resolutions m = .ok none) := by
  constructor
  · intro pre a post hsplit hpre hne hall hdist
    have hperm := sortByKey_perm (fun r => r.height.getD 0) a.representations
    have hmemall : ∀ r ∈ sortByKey (fun r => r.height.getD 0) a.representations,
        ∃ h, r.height = some h ∧ h ≠ 0 :=
      fun r hr => hall r (hperm.mem_iff.mp hr)
    refine ⟨?_, ?_, ?_, hperm.map _⟩
    · obtain ⟨r0, tl, hl⟩ := List.exists_cons_of_ne_nil hne
      have h0 : a.representations.head? = some r0 := by rw [hl]; rfl
      obtain ⟨h0h, hh0, hh0ne⟩ := hall r0 (head?_mem h0)
      have ht : heightTruthy r0.height = true := by
        rw [hh0]
        simpa [heightTruthy] using hh0ne
      have hnone : ¬(1 < a.representations.length ∧
          (a.representations.any fun r => decide (r.height = none)) = true) := by
        rintro ⟨-, hany⟩
        obtain ⟨r, hr, hrn⟩ := List.any_eq_true.mp hany
        obtain ⟨h, hh, -⟩ := hall r hr
        rw [hh] at hrn
        exact Option.noConfusion (of_decide_eq_true hrn)
      unfold get_resolutions
      rw [hp]
      show getResolutionsGo p.adaptation_sets = _
      rw [hsplit, getResolutionsGo_append_skip pre (a :: post) hpre,
        getResolutionsGo, h0]
      simp only [ht, if_true, pySortedByHeight, if_neg hnone]
    · rw [List.length_map, hperm.length_eq]
    · rw [List.pairwise_map]
      have hle := sortByKey_pairwise (fun r => r.height.getD 0) a.representations
      have hdup : ((sortByKey (fun r => r.height.getD 0) a.representations).map
          (fun r => r.height)).Nodup := ((hperm.map _).nodup_iff).mpr hdist
      have hne2 : (sortByKey (fun r => r.height.getD 0) a.representations).Pairwise
          (fun x y => x.height ≠ y.height) := List.pairwise_map.mp hdup
      refine (hle.and hne2).imp_of_mem ?_
      intro x y hx hy ⟨hxy, hne'⟩
      obtain ⟨hx1, hx2, -⟩ := hmemall x hx
      obtain ⟨hy1, hy2, -⟩ := hmemall y hy
      rcases Nat.lt_or_ge (x.height.getD 0) (y.height.getD 0) with h | h
      · exact h
      · exfalso
        apply hne'
        rw [hx2, hy2]
        have : x.height.getD 0 = y.height.getD 0 := Nat.le_antisymm hxy h
        rw [hx2, hy2] at this
        simpa using this
  · intro hfalse
    unfold get_resolutions
    rw [hp]
    show getResolutionsGo p.adaptation_sets = _
    rw [show p.adaptation_sets = p.adaptation_sets ++ [] from (List.append_nil _).symm,
      getResolutionsGo_append_skip p.adaptation_sets [] hfalse]
    rfl

/-- Witness for the amended C6: `mPlain`'s video set (720p listed
before 360p) yields the two pairs sorted ascending by height; an
audio-only manifest yields Python's `None`. -/
theorem C6_witness :
    get_resolutions mPlain = .ok (some [(some 640, some 360), (some 1280, some 720)]) ∧
    get_resolutions ⟨[⟨[asAudio]⟩]⟩ = .ok none := by
  constructor
  · have h := (C6_resolutions_sorted mPlain ⟨[asAudio, asVideo]⟩ rfl).1
      [asAudio] asVideo [] rfl
      (by
        intro bset hb
        rw [List.mem_singleton] at hb
        subst hb
        exact ⟨⟨none, none, [⟨"http://a/"⟩], [⟨[⟨some "s1"⟩, ⟨none⟩, ⟨some "s2"⟩]⟩]⟩,
          rfl, rfl⟩)
      (by decide)
      (by
        intro r hr
        fin_cases hr
        · exact ⟨720, rfl, by decide⟩
        · exact ⟨360, rfl, by decide⟩)
      (by decide)
    exact h.1.trans rfl
  · exact (C6_resolutions_sorted ⟨[⟨[asAudio]⟩]⟩ ⟨[asAudio]⟩ rfl).2
      (by
        intro aset ha
        rw [List.mem_singleton] at ha
        subst ha
        exact ⟨⟨none, none, [⟨"http://a/"⟩], [⟨[⟨some "s1"⟩, ⟨none⟩, ⟨some "s2"⟩]⟩]⟩,
          rfl, rfl⟩)

theorem trackPathAudio (t : String) : t ++ "_" ++ "Audio" ++ ".aac" = t ++ "_Audio.aac" := by
  rw [String.append_assoc, String.append_assoc]
  rfl

theorem encPathAudio (t : String) : t ++ "_Audio" ++ ".aac.enc" = t ++ "_Audio.aac.enc" := by
  rw [String.append_assoc]
  rfl

theorem pySuffix_audio (s : String) : pySuffix (s ++ "_Audio.aac") = ".aac" := by
  have h : (s ++ "_Audio.aac").data.reverse
      = 'c' :: 'a' :: 'a' :: '.' :: 'o' :: 'i' :: 'd' :: 'u' :: 'A' :: '_' :: s.data.reverse := by
    rw [String.data_append, List.reverse_append]
    rfl
  unfold pySuffix
  rw [h]
  rfl

theorem pyWithSuffix_audio (s suf : String) :
    pyWithSuffix (s ++ "_Audio.aac") suf = s ++ "_Audio" ++ suf := by
  have h : (s ++ "_Audio.aac").data.reverse
      = 'c' :: 'a' :: 'a' :: '.' :: 'o' :: 'i' :: 'd' :: 'u' :: 'A' :: '_' :: s.data.reverse := by
    rw [String.data_append, List.reverse_append]
    rfl
  unfold pyWithSuffix
  rw [pySuffix_audio s, h]
  apply String.ext
  show ('o' :: 'i' :: 'd' :: 'u' :: 'A' :: '_' :: s.data.reverse).reverse ++ suf.data
      = (s ++ "_Audio" ++ suf).data
  rw [String.data_append, String.data_append]
  show ('o' :: 'i' :: 'd' :: 'u' :: 'A' :: '_' :: s.data.reverse).reverse ++ suf.data
      = (s.data ++ ['_', 'A', 'u', 'd', 'i', 'o']) ++ suf.data
  congr 1
  simp

/-- C7: in audio-only mode, a successful run fetches only the audio
track (into the `.enc` temp file when the key is truthy — present and
non-empty, as `if key:` tests Python truthiness — else the raw temp
file), decrypts it exactly when the key is truthy, and finishes with
`shutil.move` of the single audio temp file to the output path whose
suffix is forced to `.aac`; `_merge_tracks` never appears in the
trace. -/
theorem C7_audio_only_moves (m : MPEGDASH) (resp : LicResponse)
    (net : String → Nat → Option (List Nat)) (tmpBase filepath : String)
    (res : Resolution) (key : Option String) (d : List (String × List String))
    (au vu : List String)
    (hkey : getLicenseKey m resp = .ok key)
    (hd : getSegmentsUrls m res = .ok d)
    (hau : dictGet d "audio/mp4" = some au)
    (hvu : dictGet d "video/mp4" = some vu)
    (hfetch : (fetchSegments net au).2.2 = none) :
    download m resp net true tmpBase filepath (some res) =
      .ok (Action.fetch au (if strTruthy key then tmpBase ++ "_Audio.aac.enc"
            else tmpBase ++ "_Audio.aac") ::
        ((match key with
          | some k => if k ≠ "" then [Action.decrypt (tmpBase ++ "_Audio.aac.enc")
              (tmpBase ++ "_Audio.aac") k] else []
          | none => []) ++
        [Action.move (tmpBase ++ "_Audio.aac") (pyWithSuffix filepath ".aac")])) ∧
    (∀ tr, download m resp net true tmpBase filepath (some res) = .ok tr →
      ∀ srcs dst, Action.merge srcs dst ∉ tr) := by
  have hsufenc : (".aac" : String) ++ ".enc" = ".aac.enc" := rfl
  have h1 : download m resp net true tmpBase filepath (some res) =
      .ok (Action.fetch au (if strTruthy key then tmpBase ++ "_Audio.aac.enc"
            else tmpBase ++ "_Audio.aac") ::
        ((match key with
          | some k => if k ≠ "" then [Action.decrypt (tmpBase ++ "_Audio.aac.enc")
              (tmpBase ++ "_Audio.aac") k] else []
          | none => []) ++
        [Action.move (tmpBase ++ "_Audio.aac") (pyWithSuffix filepath ".aac")])) := by
    rcases key with _ | k
    · simp [download, hkey, hd, hau, hvu, hfetch, fetchPhase, Bind.bind, Except.bind,
        pure, Except.pure, exceptOfOption, trackPathAudio, hsufenc, pySuffix_audio,
        pyWithSuffix_audio, encPathAudio, List.getLast?, strTruthy]
    · by_cases hk : k = ""
      · subst hk
        simp [download, hkey, hd, hau, hvu, hfetch, fetchPhase, Bind.bind, Except.bind,
          pure, Except.pure, exceptOfOption, trackPathAudio, hsufenc, pySuffix_audio,
          pyWithSuffix_audio, encPathAudio, List.getLast?, strTruthy]
      · simp [download, hkey, hd, hau, hvu, hfetch, fetchPhase, Bind.bind, Except.bind,
          pure, Except.pure, exceptOfOption, trackPathAudio, hsufenc, pySuffix_audio,
          pyWithSuffix_audio, encPathAudio, List.getLast?, strTruthy, hk]
  refine ⟨h1, fun tr htr srcs dst hmem => ?_⟩
  have htr' := Except.ok.inj (h1.symm.trans htr)
  rw [← htr'] at hmem
  rcases key with _ | k
  · simp at hmem
  · by_cases hk : k = ""
    · subst hk
      simp at hmem
    · simp [hk] at hmem

/-- Witness for C7: an unencrypted audio-only run on `mPlain` fetches
the audio segments into the raw temp file and moves it to
`out/file.aac` (no decrypt, no merge); an encrypted run on `mPlainProt`
fetches into the `.enc` file and decrypts with the derived key; and a
run whose license reply carries the empty `k` — a falsy derived key —
fetches raw and skips decryption. -/
theorem C7_witness :
    download mPlain ⟨none⟩ netConst true "temp/vid" "out/file.mp4"
      (some (some 640, some 360)) =
      .ok [Action.fetch ["http://a/s1", "http://a/s2"] "temp/vid_Audio.aac",
           Action.move "temp/vid_Audio.aac" "out/file.aac"] ∧
    download mPlainProt respQwerty netConst true "temp/vid" "out/file.mp4"
      (some (some 640, some 360)) =
      .ok [Action.fetch ["http://a/s1", "http://a/s2"] "temp/vid_Audio.aac.enc",
           Action.decrypt "temp/vid_Audio.aac.enc" "temp/vid_Audio.aac" "717765727479",
           Action.move "temp/vid_Audio.aac" "out/file.aac"] ∧
    download mPlainProt respEmptyK netConst true "temp/vid" "out/file.mp4"
      (some (some 640, some 360)) =
      .ok [Action.fetch ["http://a/s1", "http://a/s2"] "temp/vid_Audio.aac",
           Action.move "temp/vid_Audio.aac" "out/file.aac"] := by
  have h := (C7_audio_only_moves mPlain ⟨none⟩ netConst "temp/vid" "out/file.mp4"
    (some 640, some 360) none
    [("audio/mp4", ["http://a/s1", "http://a/s2"]), ("video/mp4", ["http://v3/v3a"])]
    ["http://a/s1", "http://a/s2"] ["http://v3/v3a"]
    rfl rfl rfl rfl rfl).1
  have h2 := (C7_audio_only_moves mPlainProt respQwerty netConst "temp/vid" "out/file.mp4"
    (some 640, some 360) (some "717765727479")
    [("audio/mp4", ["http://a/s1", "http://a/s2"]), ("video/mp4", ["http://v3/v3a"])]
    ["http://a/s1", "http://a/s2"] ["http://v3/v3a"]
    rfl rfl rfl rfl rfl).1
  have h3 := (C7_audio_only_moves mPlainProt respEmptyK netConst "temp/vid" "out/file.mp4"
    (some 640, some 360) (some "")
    [("audio/mp4", ["http://a/s1", "http://a/s2"]), ("video/mp4", ["http://v3/v3a"])]
    ["http://a/s1", "http://a/s2"] ["http://v3/v3a"]
    rfl rfl rfl rfl rfl).1
  exact ⟨h.trans rfl, h2.trans rfl, h3.trans rfl⟩

/-- C9: `get_resolutions`, `_get_license_key` and `_get_segments_urls`
read only `periods[0]`: two manifests with the same first period are
indistinguishable to all three operations, whatever their later
periods. -/
theorem C9_first_period_only (m1 m2 : MPEGDASH)
    (h : m1.periods.head? = m2.periods.head?) :
    get_resolutions m1 = get_resolutions m2 ∧
    (∀ resp, getLicenseKey m1 resp = getLicenseKey m2 resp) ∧
    (∀ res, getSegmentsUrls m1 res = getSegmentsUrls m2 res) := by
  refine ⟨?_, fun resp => ?_, fun res => ?_⟩
  · unfold get_resolutions
    rw [h]
  · unfold getLicenseKey getLicenseKeyInner
    rw [h]
  · unfold getSegmentsUrls getSegmentsUrlsInner
    rw [h]

/-- Witness for C9: `mPlain` and `mTwoPeriods` share their first
period but differ afterwards; all three operations agree on them. -/
theorem C9_witness :
    get_resolutions mPlain = get_resolutions mTwoPeriods ∧
    getLicenseKey mPlain respQwerty = getLicenseKey mTwoPeriods respQwerty ∧
    getSegmentsUrls mPlain (some 640, some 360) =
      getSegmentsUrls mTwoPeriods (some 640, some 360) ∧
    mPlain ≠ mTwoPeriods := by
  have h := C9_first_period_only mPlain mTwoPeriods rfl
  exact ⟨h.1, h.2.1 respQwerty, h.2.2 (some 640, some 360), by decide⟩

/-- C10: in audio-only mode, `download` still builds the video URL list
(`elements` is constructed before `pop`), and `_get_segments_urls`
walks every adaptation set of the first period; so a requested
resolution with truthy heights but no exact match in some adaptation
set aborts the run with `InvalidResolution` even though no video track
would be fetched. -/
theorem C10_audio_only_still_validates (m : MPEGDASH) (resp : LicResponse)
    (net : String → Nat → Option (List Nat)) (tmpBase filepath : String)
    (res : Resolution) (key : Option String) (p : Period)
    (aA aV : AdaptationSet) (rA : Representation)
    (hkey : getLicenseKey m resp = .ok key)
    (hp : m.periods.head? = some p)
    (hsets : p.adaptation_sets = [aA, aV])
    (hA0 : aA.representations.head? = some rA)
    (hAf : heightTruthy rA.height = false)
    (b : BaseURL) (hAb : rA.base_urls.head? = some b)
    (sl : SegmentList) (hAs : rA.segment_lists.head? = some sl)
    (hV : ∀ r ∈ aV.representations, heightTruthy r.height = true)
    (hVne : aV.representations ≠ [])
    (hfind : aV.representations.find?
      (fun r => decide ((r.width, r.height) = res)) = none) :
    download m resp net true tmpBase filepath (some res) = .error .invalidResolution := by
  have hokA := processAS_no_height aA res rA hA0 hAf b hAb sl hAs
  obtain ⟨rV, tlV, hlV⟩ := List.exists_cons_of_ne_nil hVne
  have h0V : aV.representations.head? = some rV := by rw [hlV]; rfl
  have hbadV := processAS_heights_nomatch aV res rV h0V (hV rV (head?_mem h0V)) hfind
  have hseg : getSegmentsUrls m res = .error .invalidResolution := by
    unfold getSegmentsUrls getSegmentsUrlsInner
    rw [hp]
    show (match segmentsFromSetsGo res p.adaptation_sets [] with
      | Except.error PyErr.valueError => (Except.error PyErr.invalidResolution :
          Except PyErr (List (String × List String)))
      | r => r) = _
    rw [hsets]
    unfold segmentsFromSetsGo
    rw [hokA]
    unfold segmentsFromSetsGo
    rw [hbadV]
  simp [download, hkey, hseg, Bind.bind, Except.bind, pure, Except.pure]

/-- Witness for C10: requesting 100×99 from `mPlain` in audio-only mode
fails with `InvalidResolution`, although the audio set would process
fine. -/
theorem C10_witness :
    download mPlain respNoKeys netConst true "temp/vid" "out"
      (some (some 100, some 99)) = .error .invalidResolution := by
  exact C10_audio_only_still_validates mPlain respNoKeys netConst "temp/vid" "out"
    (some 100, some 99) none ⟨[asAudio, asVideo]⟩ asAudio asVideo
    ⟨none, none, [⟨"http://a/"⟩], [⟨[⟨some "s1"⟩, ⟨none⟩, ⟨some "s2"⟩]⟩]⟩
    rfl rfl rfl rfl rfl ⟨"http://a/"⟩ rfl ⟨[⟨some "s1"⟩, ⟨none⟩, ⟨some "s2"⟩]⟩ rfl
    (by decide) (by decide) (by decide)

end Kinescope
